import Mathlib

/-!
Verification of the bilingual query-refinement and result-aggregation core of
the ajos_mvp repository (backend/app/services.py, backend/app/main.py,
backend/app/autocomplete.py), as a shallow embedding in Lean.

External collaborators (the argostranslate translation capability and the
PostgreSQL store) are modelled as explicit environments; the configuration
tables that the backend imports from modules not present in the source tree
(`COMMON_PROFESSIONS`, `MANUAL_FIX`) are modelled from the spec as parameters.
-/

namespace Ajos

/-! ## String primitives mirroring the Python `str` methods used by the code -/

/-- Python `str.lower()` (character-wise lowering). -/
def lowerStr (s : String) : String := ⟨s.data.map Char.toLower⟩

/-- Drop a trailing run of whitespace. -/
def dropTrail (l : List Char) : List Char := (l.reverse.dropWhile Char.isWhitespace).reverse

/-- Python `str.strip()` on the underlying character list. -/
def stripData (l : List Char) : List Char := dropTrail (l.dropWhile Char.isWhitespace)

/-- Python `str.strip()`. -/
def stripStr (s : String) : String := ⟨stripData s.data⟩

/-- Python substring test `needle in hay`. -/
def strContains (hay needle : String) : Bool :=
  hay.data.tails.any (fun t => needle.data.isPrefixOf t)

/-- Split a character list into maximal runs of non-whitespace characters,
as Python `str.split()` does. -/
def splitWords (l : List Char) : List (List Char) :=
  (l.foldr
      (fun c acc =>
        if c.isWhitespace then [] :: acc
        else
          match acc with
          | [] => [[c]]
          | w :: ws => (c :: w) :: ws)
      []).filter (fun w => !w.isEmpty)

/-- Collapse consecutive case-insensitively equal words, keeping track of the
last word kept (`unique_words[-1]` in the source). -/
def collapseWords : Option (List Char) → List (List Char) → List (List Char)
  | _, [] => []
  | none, w :: ws => w :: collapseWords (some w) ws
  | some prev, w :: ws =>
    if w.map Char.toLower = prev.map Char.toLower then collapseWords (some prev) ws
    else w :: collapseWords (some w) ws

/-- Python `str.title()` helper: the flag records whether the next alphabetic
character starts a new word. -/
def titleCaseAux : Bool → List Char → List Char
  | _, [] => []
  | newWord, c :: cs =>
    if c.isAlpha then
      (if newWord then c.toUpper else c.toLower) :: titleCaseAux false cs
    else c :: titleCaseAux true cs

/-- Python `str.title()`. -/
def titleCase (s : String) : String := ⟨titleCaseAux true s.data⟩

/-! ## Static configuration and external collaborators -/

/-- The `MANUAL_TRANSLATIONS` table of `services.py`. -/
def MANUAL_TRANSLATIONS : List (String × String) :=
  [("plumber", "rörmokare"), ("dentist", "tandläkare"), ("doctor", "läkare"),
   ("driver", "förare")]

/-- Modelled from the spec: the module `app.common_professions` providing
`COMMON_PROFESSIONS` is not under `src/`; the spec (§4.3) describes it only as
a fixed short list of common-profession terms (static configuration), so the
list is taken as an explicit parameter of the functions that consult it. -/
abbrev CommonProfessions : Type := List String

/-- Modelled from the spec: the module `app.manual_translation` providing
`MANUAL_FIX` is not under `src/`; the spec (§4.2) describes it as a curated
profession → Swedish table looked up with two keys (verbatim, then
title-cased), so the table is taken as an explicit parameter. -/
abbrev ManualFixTable : Type := List (String × String)

/-- The only exception `translate_en_to_sv` raises itself. -/
inductive TransError where
  | packagesNotInstalled
deriving DecidableEq

/-- The Python exception message, as produced by `str(e)` in the callers. -/
def TransError.message : TransError → String
  | .packagesNotInstalled => "The packages are not installed for en→sv"

/-- The argostranslate collaborator: which language objects are installed,
whether the sv→en translation object exists, and the behaviour of the two
translation calls (`none` models the call raising an exception). -/
structure TransEnv where
  enInstalled : Bool
  svInstalled : Bool
  svEnPair : Bool
  translateEnSv : String → Option String
  translateSvEn : String → Option String

/-- The PostgreSQL store: the three weekly-count queries the backend issues.
`Except.error` models `psycopg`/connection exceptions carrying `str(e)`. -/
structure DbEnv where
  countEn : String → Except String (List (String × Nat))
  countSv : String → Except String (List (String × Nat))
  countBoth : String → String → Except String (List (String × Nat))

/-! ## services.py -/

/-- `clean_translation` of `services.py`: removes consecutive duplicate words
(case-insensitive) from a translation result. -/
def clean_translation (text : String) : String :=
  String.intercalate " "
    ((collapseWords none (splitWords (stripStr text).data)).map (fun w => String.mk w))

/-- The generic argostranslate en→sv path of `translate_en_to_sv`: check the
installed languages, then translate inside `try`, falling back to the input on
a translation error. -/
def argosEnSv (env : TransEnv) (text : String) : Except TransError String :=
  if env.enInstalled = true ∧ env.svInstalled = true then
    match env.translateEnSv text with
    | some translated => .ok (clean_translation translated)
    | none => .ok text
  else .error .packagesNotInstalled

/-- `translate_en_to_sv` of `services.py`. The manual-override lookup uses the
trimmed lower-cased text; a present but empty value is falsy in Python and
falls through to the generic path. -/
def translate_en_to_sv (env : TransEnv) (text : String) : Except TransError String :=
  match List.lookup (lowerStr (stripStr text)) MANUAL_TRANSLATIONS with
  | some manual => if manual = "" then argosEnSv env text else .ok manual
  | none => argosEnSv env text

/-- `translate_sv_to_en` of `services.py`: best-effort, returns the original
text when the pair is missing or the translation call raises. -/
def translate_sv_to_en (env : TransEnv) (text : String) : String :=
  if env.svInstalled = true ∧ env.enInstalled = true ∧ env.svEnPair = true then
    match env.translateSvEn text with
    | some translated => translated
    | none => text
  else text

/-- `get_swedish_profession` of `services.py`: exact `MANUAL_FIX` match, then
title-cased match, then the generic en→sv translation. -/
def get_swedish_profession (fix : ManualFixTable) (env : TransEnv) (query : String) :
    Except TransError String :=
  match List.lookup query fix with
  | some v => .ok v
  | none =>
    match List.lookup (titleCase query) fix with
    | some v => .ok v
    | none => translate_en_to_sv env query

/-- `autocomplete_occupation_labels` of `autocomplete.py`/`services.py`:
substring matches over the stored label list, truncated to `limit`. -/
def autocomplete_occupation_labels (occupation_labels : List String)
    (query_sv : String) (limit : Nat := 10) : List String :=
  if query_sv = "" then []
  else
    (occupation_labels.filter
        (fun label => !(label == "") && strContains (lowerStr label) (lowerStr query_sv))).take
      limit

/-- The `for prof in COMMON_PROFESSIONS` loop of `is_too_general`: compare the
normalized query with the lower-cased Swedish translation of each term,
propagating a translation exception. -/
def tooGeneralLoop (env : TransEnv) (query_l : String) : List String → Except TransError Bool
  | [] => .ok false
  | p :: ps =>
    match translate_en_to_sv env p with
    | .error e => .error e
    | .ok sw => if query_l = lowerStr sw then .ok true else tooGeneralLoop env query_l ps

/-- `is_too_general` of `services.py`. -/
def is_too_general (env : TransEnv) (common : CommonProfessions) (query : String)
    (occupation_labels : List String) (max_labels : Nat := 10) : Except TransError Bool :=
  if lowerStr (stripStr query) ∈ common then .ok true
  else
    match tooGeneralLoop env (lowerStr (stripStr query)) common with
    | .error e => .error e
    | .ok true => .ok true
    | .ok false =>
      .ok (decide (max_labels ≤
        (occupation_labels.filter
            (fun lbl => strContains (lowerStr lbl) (lowerStr (stripStr query)))).length))

/-! ## perform_search and its merge

Python `sorted` on `str` compares strings lexicographically by code point;
that order is spelled out here because it must be executable. -/

/-- Code-point lexicographic strict order on character lists. -/
def charsLt : List Char → List Char → Bool
  | [], [] => false
  | [], _ :: _ => true
  | _ :: _, [] => false
  | a :: as, b :: bs =>
    if a.toNat < b.toNat then true
    else if b.toNat < a.toNat then false
    else charsLt as bs

/-- Python `<` on strings. -/
def strLt (x y : String) : Bool := charsLt x.data y.data

/-- Python `<=` on strings. -/
def strLe (x y : String) : Bool := strLt x y || x == y

/-- Insert a week key into an already sorted key list. -/
def insertKey (w : String) : List String → List String
  | [] => [w]
  | x :: xs => if strLe w x then w :: x :: xs else x :: insertKey w xs

/-- Python `sorted` on a list of week keys (insertion sort; the order is the
code-point lexicographic one, so the result agrees with `sorted`). -/
def sortKeys : List String → List String
  | [] => []
  | x :: xs => insertKey x (sortKeys xs)

/-- The accumulated count of one `weekKey` over the concatenated row lists:
the value `week_counts[week]` of the `defaultdict(int)` accumulation. -/
def weekTotal (rows : List (String × Nat)) (w : String) : Nat :=
  ((rows.filter (fun r => r.1 == w)).map Prod.snd).sum

/-- The merge step of `perform_search`: sum counts per week over both result
sets and emit the weeks sorted ascending. -/
def mergeWeeks (dataEn dataSv : List (String × Nat)) : List (String × Nat) :=
  (sortKeys (((dataEn ++ dataSv).map Prod.fst).dedup)).map
    (fun w => (w, weekTotal (dataEn ++ dataSv) w))

/-- The result dictionary of `perform_search`: either the search payload or
the error payload (both echo `query` and `swedish`). -/
inductive SearchResult where
  | ok (query swedish : String) (dynamics : List (String × Nat))
  | err (msg query swedish : String)
deriving DecidableEq

/-- `perform_search` of `services.py`: the English lookup runs first; an
exception from either lookup is caught and returned as an error payload. -/
def perform_search (db : DbEnv) (query swedish : String) : SearchResult :=
  match db.countEn (stripStr query) with
  | .error e => .err e query swedish
  | .ok dataEn =>
    match db.countSv swedish with
    | .error e => .err e query swedish
    | .ok dataSv => .ok query swedish (mergeWeeks dataEn dataSv)

/-! ## search_query (single-query orchestrator) -/

/-- The suggestion formatting of `search_query`/`multi_search`: bilingual
display only when the English translation is truthy and differs
case-insensitively from the Swedish label. -/
def format_suggestion_checked (en lbl : String) : String :=
  if en ≠ "" ∧ lowerStr en ≠ lowerStr lbl then en ++ " (" ++ lbl ++ ")" else lbl

/-- The suggestion formatting of the `/autocomplete` route of `main.py`:
bilingual display whenever the two labels differ case-insensitively. -/
def format_suggestion (en lbl : String) : String :=
  if lowerStr en ≠ lowerStr lbl then en ++ " (" ++ lbl ++ ")" else lbl

/-- The response dictionaries `search_query` can return. -/
inductive QueryOutcome where
  | error (msg : String)
  | needRefine (suggestions : List String) (originalQuery : String) (allowRawSearch : Bool)
  | search (r : SearchResult)
deriving DecidableEq

/-- `search_query` of `services.py`. -/
def search_query (env : TransEnv) (db : DbEnv) (fix : ManualFixTable)
    (common : CommonProfessions) (occupation_labels : List String)
    (query : String) (refined : Bool) : QueryOutcome :=
  if stripStr query = "" then .error "Empty query."
  else
    match get_swedish_profession fix env (stripStr query) with
    | .error e => .error e.message
    | .ok swedish =>
      if refined then .search (perform_search db (stripStr query) swedish)
      else
        match is_too_general env common (stripStr query) occupation_labels 10 with
        | .error e => .error e.message
        | .ok true =>
          .needRefine
            (((autocomplete_occupation_labels occupation_labels swedish 10).take 10).map
              (fun lbl => format_suggestion_checked (translate_sv_to_en env lbl) lbl))
            (stripStr query) true
        | .ok false => .search (perform_search db (stripStr query) swedish)

/-- The `/autocomplete` route of `main.py` (a raised translation exception
propagates out of the route). -/
def autocomplete_route (env : TransEnv) (occupation_labels : List String)
    (query : String) : Except TransError (String × String × List String) :=
  match translate_en_to_sv env query with
  | .error e => .error e
  | .ok swedish =>
    .ok (query, swedish,
      (autocomplete_occupation_labels occupation_labels swedish 10).map
        (fun lbl => format_suggestion (translate_sv_to_en env lbl) lbl))

/-! ## multi_search (batch orchestrator) -/

/-- The responses `/multi_search` can produce: an HTTPException 400, the
combined refinement response, the per-query results, or an uncaught exception
(there is no try/except in the route). -/
inductive MultiOutcome where
  | badRequest (msg : String)
  | refine (refineWhich : List Nat) (suggestions : List (List String))
      (originalQueries : List String) (allowRawSearch : List Bool)
  | results (rs : List (String × String × List (String × Nat)))
  | error (msg : String)
deriving DecidableEq

/-- One iteration of the refinement loop of `/multi_search`: returns
(flagged, suggestion list, allow_raw_search) for one query. -/
def refineEntry (env : TransEnv) (common : CommonProfessions)
    (occupation_labels : List String) (q : String) (r : Bool) :
    Except TransError (Bool × List String × Bool) :=
  if r then .ok (false, [], false)
  else
    match is_too_general env common q occupation_labels 10 with
    | .error e => .error e
    | .ok false => .ok (false, [], false)
    | .ok true =>
      match translate_en_to_sv env q with
      | .error e => .error e
      | .ok sw =>
        .ok (true,
          ((autocomplete_occupation_labels occupation_labels sw 10).take 10).map
            (fun lbl => format_suggestion_checked (translate_sv_to_en env lbl) lbl),
          true)

/-- The full refinement loop of `/multi_search`, left to right; the first
raised exception aborts the request. -/
def refineScan (env : TransEnv) (common : CommonProfessions)
    (occupation_labels : List String) :
    List (String × Bool) → Except TransError (List (Bool × List String × Bool))
  | [] => .ok []
  | (q, r) :: rest =>
    match refineEntry env common occupation_labels q r with
    | .error e => .error e
    | .ok entry =>
      match refineScan env common occupation_labels rest with
      | .error e => .error e
      | .ok tail => .ok (entry :: tail)

/-- The search loop of `/multi_search`: per query, translate then run the
single combined per-language SQL query. -/
def searchAll (env : TransEnv) (db : DbEnv) :
    List String → Except String (List (String × String × List (String × Nat)))
  | [] => .ok []
  | q :: qs =>
    match translate_en_to_sv env q with
    | .error e => .error e.message
    | .ok sw =>
      match db.countBoth (stripStr q) sw with
      | .error m => .error m
      | .ok rows =>
        match searchAll env db qs with
        | .error m => .error m
        | .ok rest => .ok ((q, sw, rows) :: rest)

/-- `/multi_search` of `main.py`. -/
def multi_search (env : TransEnv) (db : DbEnv) (common : CommonProfessions)
    (occupation_labels : List String) (queries : List String)
    (refinedOpt : Option (List Bool)) : MultiOutcome :=
  if queries = [] then .badRequest "At least one query is required."
  else if 2 < queries.length then .badRequest "A maximum of 2 queries is allowed."
  else
    match refineScan env common occupation_labels
        (queries.zip
          (match refinedOpt with
           | none => List.replicate queries.length false
           | some r =>
             if r.length = queries.length then r else List.replicate queries.length false)) with
    | .error e => .error e.message
    | .ok entries =>
      if entries.any (fun e => e.1) then
        .refine ((entries.enum.filter (fun p => p.2.1)).map Prod.fst)
          (entries.map (fun e => e.2.1)) queries (entries.map (fun e => e.2.2))
      else
        match searchAll env db queries with
        | .error m => .error m
        | .ok rs => .results rs

/-! ## Concrete fixtures used by witnesses and counterexamples -/

/-- A translation environment with the en↔sv pair installed, whose en→sv call
answers "svetsare" and whose sv→en call echoes its input. -/
def envOk : TransEnv :=
  { enInstalled := true, svInstalled := true, svEnPair := true,
    translateEnSv := fun _ => some "svetsare",
    translateSvEn := fun t => some t }

/-- A translation environment with no language packages installed. -/
def envMissing : TransEnv :=
  { enInstalled := false, svInstalled := false, svEnPair := false,
    translateEnSv := fun _ => none, translateSvEn := fun _ => none }

/-- A store that answers every count query with an empty week list. -/
def dbStub : DbEnv :=
  { countEn := fun _ => .ok [], countSv := fun _ => .ok [],
    countBoth := fun _ _ => .ok [] }

/-- A store whose connection always fails. -/
def dbFail : DbEnv :=
  { countEn := fun _ => .error "connection refused",
    countSv := fun _ => .error "connection refused",
    countBoth := fun _ _ => .error "connection refused" }

/-- A ten-label catalog in which every label contains "welder". -/
def welderLabels : List String :=
  ["welder 0", "welder 1", "welder 2", "welder 3", "welder 4",
   "welder 5", "welder 6", "welder 7", "welder 8", "welder 9"]

/-- A one-entry manual-fix table with a title-cased key, the key shape the
source's own comment illustrates. -/
def fixTitle : ManualFixTable := [("Welder", "svetsare")]

end Ajos

instance {ε α : Type} [DecidableEq ε] [DecidableEq α] : DecidableEq (Except ε α) := fun x y =>
  match x, y with
  | .ok a, .ok b =>
    if h : a = b then .isTrue (by rw [h]) else .isFalse (fun hc => h (Except.ok.inj hc))
  | .error a, .error b =>
    if h : a = b then .isTrue (by rw [h]) else .isFalse (fun hc => h (Except.error.inj hc))
  | .ok _, .error _ => .isFalse (fun hc => Except.noConfusion hc)
  | .error _, .ok _ => .isFalse (fun hc => Except.noConfusion hc)

namespace Ajos

/-! ## Helper lemmas: stripping -/

theorem dropWhile_idem {α : Type} (p : α → Bool) (l : List α) :
    List.dropWhile p (List.dropWhile p l) = List.dropWhile p l := by
  induction l with
  | nil => rfl
  | cons a t ih =>
    rw [List.dropWhile_cons]
    by_cases h : p a = true
    · rw [if_pos h]; exact ih
    · rw [if_neg h, List.dropWhile_cons, if_neg h]

theorem dropWhile_eq_self_of_append {α : Type} (p : α → Bool) (a s : List α)
    (h : List.dropWhile p (a ++ s) = a ++ s) : List.dropWhile p a = a := by
  cases a with
  | nil => rfl
  | cons c t =>
    have hc : p c = false := by
      by_contra hc
      rw [Bool.not_eq_false] at hc
      rw [List.cons_append, List.dropWhile_cons, if_pos hc] at h
      have hlen := congrArg List.length h
      have hle := (@List.dropWhile_sublist _ (t ++ s) p).length_le
      simp only [List.length_cons, List.length_append] at hlen hle
      omega
    rw [List.dropWhile_cons, if_neg (by simp [hc])]

theorem stripData_idem (l : List Char) : stripData (stripData l) = stripData l := by
  have hxx : (l.dropWhile Char.isWhitespace).dropWhile Char.isWhitespace
      = l.dropWhile Char.isWhitespace := dropWhile_idem _ l
  have hdecomp : dropTrail (l.dropWhile Char.isWhitespace)
      ++ ((l.dropWhile Char.isWhitespace).reverse.takeWhile Char.isWhitespace).reverse
      = l.dropWhile Char.isWhitespace := by
    unfold dropTrail
    have h2 := congrArg List.reverse (List.takeWhile_append_dropWhile
      Char.isWhitespace ((l.dropWhile Char.isWhitespace).reverse))
    rw [List.reverse_append, List.reverse_reverse] at h2
    exact h2
  have hy : (dropTrail (l.dropWhile Char.isWhitespace)).dropWhile Char.isWhitespace
      = dropTrail (l.dropWhile Char.isWhitespace) := by
    apply dropWhile_eq_self_of_append Char.isWhitespace _
      ((l.dropWhile Char.isWhitespace).reverse.takeWhile Char.isWhitespace).reverse
    rw [hdecomp]
    exact hxx
  have hdt : dropTrail (dropTrail (l.dropWhile Char.isWhitespace))
      = dropTrail (l.dropWhile Char.isWhitespace) := by
    show ((dropTrail (l.dropWhile Char.isWhitespace)).reverse.dropWhile
        Char.isWhitespace).reverse = dropTrail (l.dropWhile Char.isWhitespace)
    unfold dropTrail
    rw [List.reverse_reverse, dropWhile_idem]
  calc stripData (stripData l)
      = dropTrail ((dropTrail (l.dropWhile Char.isWhitespace)).dropWhile
          Char.isWhitespace) := rfl
    _ = dropTrail (dropTrail (l.dropWhile Char.isWhitespace)) := by rw [hy]
    _ = dropTrail (l.dropWhile Char.isWhitespace) := hdt
    _ = stripData l := rfl

theorem stripStr_idem (s : String) : stripStr (stripStr s) = stripStr s := by
  show String.mk (stripData (stripData s.data)) = String.mk (stripData s.data)
  exact congrArg String.mk (stripData_idem s.data)

/-! ## Helper lemmas: the code-point order and the key sort -/

theorem char_toNat_inj {a b : Char} (h : a.toNat = b.toNat) : a = b :=
  Char.eq_of_val_eq (UInt32.ext h)

theorem charsLt_total : ∀ xs ys : List Char,
    charsLt xs ys = true ∨ charsLt ys xs = true ∨ xs = ys := by
  intro xs
  induction xs with
  | nil =>
    intro ys
    cases ys with
    | nil => right; right; rfl
    | cons b bs => left; rfl
  | cons a as ih =>
    intro ys
    cases ys with
    | nil => right; left; rfl
    | cons b bs =>
      by_cases h1 : a.toNat < b.toNat
      · left; simp [charsLt, h1]
      · by_cases h2 : b.toNat < a.toNat
        · right; left; simp [charsLt, h2]
        · have hab : a = b := char_toNat_inj (by omega)
          subst hab
          rcases ih bs with h | h | h
          · left; simp [charsLt, h]
          · right; left; simp [charsLt, h]
          · right; right; rw [h]

theorem charsLt_trans : ∀ xs ys zs : List Char,
    charsLt xs ys = true → charsLt ys zs = true → charsLt xs zs = true := by
  intro xs
  induction xs with
  | nil =>
    intro ys zs h1 h2
    cases ys with
    | nil => simp [charsLt] at h1
    | cons b bs =>
      cases zs with
      | nil => simp [charsLt] at h2
      | cons c cs => simp [charsLt]
  | cons a as ih =>
    intro ys zs h1 h2
    cases ys with
    | nil => simp [charsLt] at h1
    | cons b bs =>
      cases zs with
      | nil => simp [charsLt] at h2
      | cons c cs =>
        simp only [charsLt] at h1 h2 ⊢
        by_cases hab : a.toNat < b.toNat
        · by_cases hbc : b.toNat < c.toNat
          · have hac : a.toNat < c.toNat := by omega
            simp [hac]
          · rw [if_neg hbc] at h2
            by_cases hcb : c.toNat < b.toNat
            · rw [if_pos hcb] at h2; simp at h2
            · have hac : a.toNat < c.toNat := by omega
              simp [hac]
        · rw [if_neg hab] at h1
          by_cases hba : b.toNat < a.toNat
          · rw [if_pos hba] at h1; simp at h1
          · rw [if_neg hba] at h1
            by_cases hbc : b.toNat < c.toNat
            · have hac : a.toNat < c.toNat := by omega
              simp [hac]
            · rw [if_neg hbc] at h2
              by_cases hcb : c.toNat < b.toNat
              · rw [if_pos hcb] at h2; simp at h2
              · rw [if_neg hcb] at h2
                have h3 : ¬a.toNat < c.toNat := by omega
                have h4 : ¬c.toNat < a.toNat := by omega
                rw [if_neg h3, if_neg h4]
                exact ih bs cs h1 h2

theorem strLe_total (x y : String) : strLe x y = true ∨ strLe y x = true := by
  rcases charsLt_total x.data y.data with h | h | h
  · left; simp [strLe, strLt, h]
  · right; simp [strLe, strLt, h]
  · have hxy : x = y := by
      cases x; cases y
      exact congrArg String.mk h
    subst hxy
    left; simp [strLe]

theorem strLe_trans {x y z : String} (h1 : strLe x y = true) (h2 : strLe y z = true) :
    strLe x z = true := by
  simp only [strLe, strLt, Bool.or_eq_true, beq_iff_eq] at h1 h2 ⊢
  rcases h1 with h1 | rfl
  · rcases h2 with h2 | rfl
    · left; exact charsLt_trans _ _ _ h1 h2
    · left; exact h1
  · exact h2

theorem strLt_of_le_of_ne {a b : String} (hle : strLe a b = true) (hne : a ≠ b) :
    strLt a b = true := by
  simp only [strLe, Bool.or_eq_true, beq_iff_eq] at hle
  rcases hle with h | rfl
  · exact h
  · exact absurd rfl hne

theorem insertKey_perm (w : String) : ∀ l : List String, (insertKey w l).Perm (w :: l)
  | [] => by simp [insertKey]
  | x :: xs => by
    by_cases h : strLe w x = true
    · simp [insertKey, h]
    · rw [insertKey, if_neg h]
      exact ((insertKey_perm w xs).cons x).trans (List.Perm.swap w x xs)

theorem sortKeys_perm : ∀ l : List String, (sortKeys l).Perm l
  | [] => List.Perm.refl []
  | x :: xs => (insertKey_perm x (sortKeys xs)).trans ((sortKeys_perm xs).cons x)

theorem sorted_insertKey (w : String) :
    ∀ l : List String, List.Sorted (fun a b => strLe a b = true) l →
      List.Sorted (fun a b => strLe a b = true) (insertKey w l)
  | [], _ => by simp [insertKey]
  | x :: xs, h => by
    rw [List.sorted_cons] at h
    by_cases hle : strLe w x = true
    · rw [insertKey, if_pos hle, List.sorted_cons]
      refine ⟨?_, ?_⟩
      · intro b hb
        rcases List.mem_cons.mp hb with rfl | hb
        · exact hle
        · exact strLe_trans hle (h.1 b hb)
      · rw [List.sorted_cons]
        exact h
    · rw [insertKey, if_neg hle, List.sorted_cons]
      refine ⟨?_, sorted_insertKey w xs h.2⟩
      intro b hb
      rcases List.mem_cons.mp ((insertKey_perm w xs).mem_iff.mp hb) with rfl | hb
      · rcases strLe_total b x with hbx | hxb
        · exact absurd hbx hle
        · exact hxb
      · exact h.1 b hb

theorem sorted_sortKeys : ∀ l : List String,
    List.Sorted (fun a b => strLe a b = true) (sortKeys l)
  | [] => List.sorted_nil
  | x :: xs => sorted_insertKey x (sortKeys xs) (sorted_sortKeys xs)

theorem sorted_lt_sortKeys {l : List String} (h : l.Nodup) :
    List.Sorted (fun a b => strLt a b = true) (sortKeys l) := by
  have hnd : (sortKeys l).Nodup := ((sortKeys_perm l).nodup_iff).mpr h
  have := (sorted_sortKeys l).and hnd
  exact this.imp (fun hab => strLt_of_le_of_ne hab.1 hab.2)

end Ajos

namespace Ajos

/-! ## Helper lemmas: the weekly merge -/

theorem filter_key_nil (w : String) :
    ∀ l : List (String × Nat), w ∉ l.map Prod.fst → l.filter (fun r => r.1 == w) = [] := by
  intro l
  induction l with
  | nil => intro _; rfl
  | cons a t ih =>
    intro h
    rw [List.map_cons, List.mem_cons] at h
    push_neg at h
    have hne : (a.1 == w) = false := by
      rw [beq_eq_false_iff_ne]
      exact fun hc => h.1 hc.symm
    rw [List.filter_cons, if_neg (by simp [hne])]
    exact ih h.2

theorem filter_key_single (w : String) (c : Nat) :
    ∀ l : List (String × Nat), (l.map Prod.fst).Nodup → (w, c) ∈ l →
      l.filter (fun r => r.1 == w) = [(w, c)] := by
  intro l
  induction l with
  | nil => intro _ h; cases h
  | cons a t ih =>
    intro hn hm
    rw [List.map_cons, List.nodup_cons] at hn
    rcases List.mem_cons.mp hm with rfl | hmt
    · rw [List.filter_cons, if_pos (by simp)]
      rw [filter_key_nil w t hn.1]
    · have ha : (a.1 == w) = false := by
        rw [beq_eq_false_iff_ne]
        intro hc
        apply hn.1
        rw [hc]
        exact List.mem_map_of_mem Prod.fst hmt
      rw [List.filter_cons, if_neg (by simp [ha])]
      exact ih hn.2 hmt

theorem weekTotal_append (l₁ l₂ : List (String × Nat)) (w : String) :
    weekTotal (l₁ ++ l₂) w = weekTotal l₁ w + weekTotal l₂ w := by
  unfold weekTotal
  rw [List.filter_append, List.map_append, List.sum_append]

theorem weekTotal_of_mem {l : List (String × Nat)} {w : String} {c : Nat}
    (hn : (l.map Prod.fst).Nodup) (hm : (w, c) ∈ l) : weekTotal l w = c := by
  unfold weekTotal
  rw [filter_key_single w c l hn hm]
  simp

theorem weekTotal_of_not_mem {l : List (String × Nat)} {w : String}
    (h : w ∉ l.map Prod.fst) : weekTotal l w = 0 := by
  unfold weekTotal
  rw [filter_key_nil w l h]
  rfl

theorem mem_mergeWeeks (dataEn dataSv : List (String × Nat)) (w : String) (c : Nat) :
    (w, c) ∈ mergeWeeks dataEn dataSv ↔
      (w ∈ (dataEn ++ dataSv).map Prod.fst ∧ c = weekTotal (dataEn ++ dataSv) w) := by
  unfold mergeWeeks
  rw [List.mem_map]
  constructor
  · rintro ⟨a, ha, heq⟩
    rw [Prod.mk.injEq] at heq
    obtain ⟨rfl, rfl⟩ := heq
    exact ⟨List.mem_dedup.mp ((sortKeys_perm _).mem_iff.mp ha), rfl⟩
  · rintro ⟨hw, rfl⟩
    exact ⟨w, (sortKeys_perm _).mem_iff.mpr (List.mem_dedup.mpr hw), rfl⟩

theorem mergeWeeks_keys_sorted (dataEn dataSv : List (String × Nat)) :
    List.Sorted (fun a b => strLt a b = true) ((mergeWeeks dataEn dataSv).map Prod.fst) := by
  unfold mergeWeeks
  rw [List.map_map]
  have hid : (Prod.fst ∘ fun w => (w, weekTotal (dataEn ++ dataSv) w)) = id := rfl
  rw [hid, List.map_id]
  exact sorted_lt_sortKeys (List.nodup_dedup _)

theorem mergeWeeks_eq_nil_iff (dataEn dataSv : List (String × Nat)) :
    mergeWeeks dataEn dataSv = [] ↔ dataEn = [] ∧ dataSv = [] := by
  constructor
  · intro h
    by_contra hc
    have hrows : dataEn ++ dataSv ≠ [] := by
      intro hap
      rw [List.append_eq_nil] at hap
      exact hc hap
    obtain ⟨r, hr⟩ := List.exists_mem_of_ne_nil _ hrows
    have hw : (r.1, weekTotal (dataEn ++ dataSv) r.1) ∈ mergeWeeks dataEn dataSv :=
      (mem_mergeWeeks _ _ _ _).mpr ⟨List.mem_map_of_mem Prod.fst hr, rfl⟩
    rw [h] at hw
    cases hw
  · rintro ⟨rfl, rfl⟩
    rfl

/-! ## Helper lemmas: translation and the classifier -/

theorem manual_lookup_ne_empty {k m : String}
    (h : List.lookup k MANUAL_TRANSLATIONS = some m) : m ≠ "" := by
  simp only [MANUAL_TRANSLATIONS, List.lookup] at h
  repeat' split at h
  all_goals first
    | (injection h with h2; subst h2; decide)
    | exact Option.noConfusion h

theorem tooGeneralLoop_ok (env : TransEnv) (ql : String) :
    ∀ ps : List String, (∀ p ∈ ps, ∃ sw, translate_en_to_sv env p = .ok sw) →
      ∃ b, tooGeneralLoop env ql ps = .ok b ∧
        (b = true ↔ ∃ p ∈ ps, ∃ sw, translate_en_to_sv env p = .ok sw ∧ ql = lowerStr sw) := by
  intro ps
  induction ps with
  | nil =>
    intro _
    refine ⟨false, rfl, ?_⟩
    simp
  | cons p rest ih =>
    intro h
    obtain ⟨sw, hsw⟩ := h p (List.mem_cons_self p rest)
    obtain ⟨b, hb, hiff⟩ := ih (fun q hq => h q (List.mem_cons_of_mem p hq))
    by_cases he : ql = lowerStr sw
    · refine ⟨true, ?_, ?_⟩
      · simp only [tooGeneralLoop, hsw]
        rw [if_pos he]
      · constructor
        · intro _
          exact ⟨p, List.mem_cons_self p rest, sw, hsw, he⟩
        · intro _
          rfl
    · refine ⟨b, ?_, ?_⟩
      · simp only [tooGeneralLoop, hsw]
        rw [if_neg he]
        exact hb
      · rw [hiff]
        constructor
        · rintro ⟨q, hq, sw2, hsw2, he2⟩
          exact ⟨q, List.mem_cons_of_mem p hq, sw2, hsw2, he2⟩
        · rintro ⟨q, hq, sw2, hsw2, he2⟩
          rcases List.mem_cons.mp hq with rfl | hq2
          · rw [hsw] at hsw2
            injection hsw2 with h3
            subst h3
            exact absurd he2 he
          · exact ⟨q, hq2, sw2, hsw2, he2⟩

end Ajos

namespace Ajos

/-! ## Helper lemmas: the multi_search loops -/

theorem refineEntry_shape (env : TransEnv) (common : CommonProfessions)
    (labels : List String) (q : String) (r : Bool) (e : Bool × List String × Bool)
    (h : refineEntry env common labels q r = .ok e) :
    (e = (false, [], false) ∧ (r = true ∨ is_too_general env common q labels 10 = .ok false))
    ∨ (e.1 = true ∧ e.2.2 = true ∧ r = false ∧ is_too_general env common q labels 10 = .ok true
       ∧ ∃ sw, translate_en_to_sv env q = .ok sw
           ∧ e.2.1 = ((autocomplete_occupation_labels labels sw 10).take 10).map
               (fun lbl => format_suggestion_checked (translate_sv_to_en env lbl) lbl)) := by
  unfold refineEntry at h
  split at h
  next hr =>
    injection h with h2
    exact Or.inl ⟨h2.symm, Or.inl hr⟩
  next hr =>
    have hr2 : r = false := by simpa using hr
    split at h
    next e2 hg => exact Except.noConfusion h
    next hg =>
      injection h with h2
      exact Or.inl ⟨h2.symm, Or.inr hg⟩
    next hg =>
      split at h
      next e2 ht => exact Except.noConfusion h
      next sw ht =>
        injection h with h2
        subst h2
        exact Or.inr ⟨rfl, rfl, hr2, hg, sw, ht, rfl⟩

theorem refineScan_ok (env : TransEnv) (common : CommonProfessions) (labels : List String) :
    ∀ (pairs : List (String × Bool)) (entries : List (Bool × List String × Bool)),
      refineScan env common labels pairs = .ok entries →
      entries.length = pairs.length ∧
      ∀ i (hp : i < pairs.length) (he : i < entries.length),
        refineEntry env common labels (pairs.get ⟨i, hp⟩).1 (pairs.get ⟨i, hp⟩).2
          = .ok (entries.get ⟨i, he⟩) := by
  intro pairs
  induction pairs with
  | nil =>
    intro entries h
    unfold refineScan at h
    injection h with h2
    subst h2
    exact ⟨rfl, fun i hp _ => absurd hp (by simp)⟩
  | cons pr rest ih =>
    obtain ⟨q, r⟩ := pr
    intro entries h
    unfold refineScan at h
    split at h
    next e2 hre => exact Except.noConfusion h
    next entry hre =>
      split at h
      next e2 hsc => exact Except.noConfusion h
      next tail hsc =>
        injection h with h2
        subst h2
        obtain ⟨hlen, hidx⟩ := ih tail hsc
        refine ⟨by simp [hlen], ?_⟩
        intro i hp he
        cases i with
        | zero => exact hre
        | succ n =>
          exact hidx n (by simp only [List.length_cons] at hp; omega)
            (by simp only [List.length_cons] at he; omega)

theorem searchAll_ok (env : TransEnv) (db : DbEnv) :
    ∀ (qs : List String) (rs : List (String × String × List (String × Nat))),
      searchAll env db qs = .ok rs →
      rs.length = qs.length ∧
      ∀ i (hq : i < qs.length) (hr : i < rs.length),
        ∃ sw rows, translate_en_to_sv env (qs.get ⟨i, hq⟩) = .ok sw
          ∧ db.countBoth (stripStr (qs.get ⟨i, hq⟩)) sw = .ok rows
          ∧ rs.get ⟨i, hr⟩ = (qs.get ⟨i, hq⟩, sw, rows) := by
  intro qs
  induction qs with
  | nil =>
    intro rs h
    unfold searchAll at h
    injection h with h2
    subst h2
    exact ⟨rfl, fun i hq _ => absurd hq (by simp)⟩
  | cons q rest ih =>
    intro rs h
    unfold searchAll at h
    split at h
    next e2 ht => exact Except.noConfusion h
    next sw ht =>
      split at h
      next m hb => exact Except.noConfusion h
      next rows hb =>
        split at h
        next m hs => exact Except.noConfusion h
        next tail hs =>
          injection h with h2
          subst h2
          obtain ⟨hlen, hidx⟩ := ih tail hs
          refine ⟨by simp [hlen], ?_⟩
          intro i hq hr
          cases i with
          | zero => exact ⟨sw, rows, ht, hb, rfl⟩
          | succ n =>
            exact hidx n (by simp only [List.length_cons] at hq; omega)
              (by simp only [List.length_cons] at hr; omega)

theorem multi_search_eval (env : TransEnv) (db : DbEnv) (common : CommonProfessions)
    (labels : List String) (queries : List String) (refined : List Bool)
    (hne : queries ≠ []) (hle : queries.length ≤ 2) (hlen : refined.length = queries.length) :
    multi_search env db common labels queries (some refined) =
      match refineScan env common labels (queries.zip refined) with
      | .error e => .error e.message
      | .ok entries =>
        if entries.any (fun e => e.1) then
          .refine ((entries.enum.filter (fun p => p.2.1)).map Prod.fst)
            (entries.map (fun e => e.2.1)) queries (entries.map (fun e => e.2.2))
        else
          match searchAll env db queries with
          | .error m => .error m
          | .ok rs => .results rs := by
  unfold multi_search
  rw [if_neg hne, if_neg (by omega)]
  have hz : (match (some refined : Option (List Bool)) with
      | none => List.replicate queries.length false
      | some r => if r.length = queries.length then r else List.replicate queries.length false)
      = refined := by
    show (if refined.length = queries.length then refined
        else List.replicate queries.length false) = refined
    exact if_pos hlen
  rw [hz]

end Ajos

namespace Ajos

/-! ## Claim theorems -/

/-- Claim C1: for per-language weekly result sets with distinct week keys, the
merge performed by `perform_search` (the `mergeWeeks` step) gives every week
present in both sets the sum of its English and Swedish counts, keeps the
single-side count for weeks present in only one set, introduces no other
weeks, and emits the weeks sorted strictly ascending by week key (code-point
lexicographic order, Python's `sorted`). -/
theorem C1_merge_correct (dataEn dataSv : List (String × Nat))
    (hEn : (dataEn.map Prod.fst).Nodup) (hSv : (dataSv.map Prod.fst).Nodup) :
    List.Sorted (fun a b => strLt a b = true) ((mergeWeeks dataEn dataSv).map Prod.fst)
    ∧ (∀ w ce cs, (w, ce) ∈ dataEn → (w, cs) ∈ dataSv →
        (w, ce + cs) ∈ mergeWeeks dataEn dataSv)
    ∧ (∀ w ce, (w, ce) ∈ dataEn → w ∉ dataSv.map Prod.fst →
        (w, ce) ∈ mergeWeeks dataEn dataSv)
    ∧ (∀ w cs, (w, cs) ∈ dataSv → w ∉ dataEn.map Prod.fst →
        (w, cs) ∈ mergeWeeks dataEn dataSv)
    ∧ (∀ w c, (w, c) ∈ mergeWeeks dataEn dataSv →
        w ∈ dataEn.map Prod.fst ∨ w ∈ dataSv.map Prod.fst) := by
  refine ⟨mergeWeeks_keys_sorted dataEn dataSv, ?_, ?_, ?_, ?_⟩
  · intro w ce cs h1 h2
    refine (mem_mergeWeeks _ _ _ _).mpr ⟨?_, ?_⟩
    · rw [List.map_append, List.mem_append]
      exact Or.inl (List.mem_map_of_mem Prod.fst h1)
    · rw [weekTotal_append, weekTotal_of_mem hEn h1, weekTotal_of_mem hSv h2]
  · intro w ce h1 h2
    refine (mem_mergeWeeks _ _ _ _).mpr ⟨?_, ?_⟩
    · rw [List.map_append, List.mem_append]
      exact Or.inl (List.mem_map_of_mem Prod.fst h1)
    · rw [weekTotal_append, weekTotal_of_mem hEn h1, weekTotal_of_not_mem h2,
        Nat.add_zero]
  · intro w cs h1 h2
    refine (mem_mergeWeeks _ _ _ _).mpr ⟨?_, ?_⟩
    · rw [List.map_append, List.mem_append]
      exact Or.inr (List.mem_map_of_mem Prod.fst h1)
    · rw [weekTotal_append, weekTotal_of_not_mem h2, weekTotal_of_mem hSv h1,
        Nat.zero_add]
  · intro w c hm
    have hk := ((mem_mergeWeeks _ _ _ _).mp hm).1
    rw [List.map_append, List.mem_append] at hk
    exact hk

/-- Claim C1 witness: the spec's dentist/tandläkare scenario, with the
concrete merged output evaluated. -/
theorem C1_merge_correct_witness :
    (([("2021-05", 3)] : List (String × Nat)).map Prod.fst).Nodup
    ∧ (([("2021-05", 2), ("2021-06", 1)] : List (String × Nat)).map Prod.fst).Nodup
    ∧ mergeWeeks [("2021-05", 3)] [("2021-05", 2), ("2021-06", 1)]
        = [("2021-05", 5), ("2021-06", 1)]
    ∧ ("2021-05", 5) ∈ mergeWeeks [("2021-05", 3)] [("2021-05", 2), ("2021-06", 1)] :=
  ⟨by decide, by decide, by decide,
    (C1_merge_correct [("2021-05", 3)] [("2021-05", 2), ("2021-06", 1)]
        (by decide) (by decide)).2.1 "2021-05" 3 2 (by decide) (by decide)⟩

/-- Claim C4: error contract of translate_en_to_sv: a manual-override hit on
the trimmed lower-cased text wins and never consults the capability (the
result is the same for every environment); otherwise a missing en→sv pair
fails with the packages-not-installed error; otherwise a failing translation
call returns the original text unchanged; otherwise the translated text is
returned after collapsing consecutive duplicate words. -/
theorem C4_translate_contract (env : TransEnv) (text : String) :
    (∀ m, List.lookup (lowerStr (stripStr text)) MANUAL_TRANSLATIONS = some m →
        translate_en_to_sv env text = .ok m
        ∧ ∀ env2 : TransEnv, translate_en_to_sv env2 text = .ok m)
    ∧ (List.lookup (lowerStr (stripStr text)) MANUAL_TRANSLATIONS = none →
        (¬(env.enInstalled = true ∧ env.svInstalled = true) →
          translate_en_to_sv env text = .error .packagesNotInstalled)
        ∧ ((env.enInstalled = true ∧ env.svInstalled = true) →
          (env.translateEnSv text = none → translate_en_to_sv env text = .ok text)
          ∧ (∀ t, env.translateEnSv text = some t →
              translate_en_to_sv env text = .ok (clean_translation t)))) := by
  constructor
  · intro m hm
    have hne := manual_lookup_ne_empty hm
    have hall : ∀ e : TransEnv, translate_en_to_sv e text = .ok m := by
      intro e
      unfold translate_en_to_sv
      simp only [hm]
      rw [if_neg hne]
    exact ⟨hall env, hall⟩
  · intro hnone
    constructor
    · intro hmiss
      unfold translate_en_to_sv
      simp only [hnone]
      unfold argosEnSv
      rw [if_neg hmiss]
    · intro hinst
      constructor
      · intro ht
        unfold translate_en_to_sv
        simp only [hnone]
        unfold argosEnSv
        rw [if_pos hinst]
        simp only [ht]
      · intro t ht
        unfold translate_en_to_sv
        simp only [hnone]
        unfold argosEnSv
        rw [if_pos hinst]
        simp only [ht]

/-- Claim C4 witness: the manual override for "Plumber" answers even with no
packages installed. -/
theorem C4_translate_contract_witness :
    List.lookup (lowerStr (stripStr "Plumber")) MANUAL_TRANSLATIONS = some "rörmokare"
    ∧ translate_en_to_sv envMissing "Plumber" = .ok "rörmokare" :=
  ⟨rfl, ((C4_translate_contract envMissing "Plumber").1 "rörmokare" rfl).1⟩

/-- Claim C5: autocomplete returns exactly the first min(limit, matches)
non-empty labels in stored catalog order whose lower-cased text contains the
lower-cased fragment; the empty fragment yields the empty list; the result
never exceeds `limit` and never includes an empty label. -/
theorem C5_autocomplete_correct (occupation_labels : List String) (q : String)
    (limit : Nat) :
    (autocomplete_occupation_labels occupation_labels q limit).length ≤ limit
    ∧ (∀ l ∈ autocomplete_occupation_labels occupation_labels q limit,
        l ≠ "" ∧ strContains (lowerStr l) (lowerStr q) = true)
    ∧ (autocomplete_occupation_labels occupation_labels q limit).Sublist occupation_labels
    ∧ (q = "" → autocomplete_occupation_labels occupation_labels q limit = [])
    ∧ (q ≠ "" →
        autocomplete_occupation_labels occupation_labels q limit
          = (occupation_labels.filter
              (fun label => !(label == "")
                && strContains (lowerStr label) (lowerStr q))).take limit
        ∧ (autocomplete_occupation_labels occupation_labels q limit).length
          = min limit (occupation_labels.filter
              (fun label => !(label == "")
                && strContains (lowerStr label) (lowerStr q))).length) := by
  by_cases hq : q = ""
  · subst hq
    refine ⟨by simp [autocomplete_occupation_labels], ?_, ?_, fun _ => rfl,
      fun h => absurd rfl h⟩
    · intro l hl
      simp [autocomplete_occupation_labels] at hl
    · simp [autocomplete_occupation_labels]
  · have hunf : autocomplete_occupation_labels occupation_labels q limit
        = (occupation_labels.filter
            (fun label => !(label == "")
              && strContains (lowerStr label) (lowerStr q))).take limit := by
      unfold autocomplete_occupation_labels
      rw [if_neg hq]
    refine ⟨?_, ?_, ?_, fun h => absurd h hq, fun _ => ⟨hunf, ?_⟩⟩
    · rw [hunf, List.length_take]
      exact min_le_left _ _
    · intro l hl
      rw [hunf] at hl
      have hl2 := List.take_subset _ _ hl
      have hp := (List.mem_filter.mp hl2).2
      rw [Bool.and_eq_true] at hp
      refine ⟨?_, hp.2⟩
      have h1 := hp.1
      rw [Bool.not_eq_true'] at h1
      exact beq_eq_false_iff_ne.mp h1
    · rw [hunf]
      exact (List.take_sublist _ _).trans (List.filter_sublist _)
    · rw [hunf, List.length_take]

/-- Claim C5 witness: a concrete catalog and fragment. -/
theorem C5_autocomplete_correct_witness :
    ("a" : String) ≠ ""
    ∧ autocomplete_occupation_labels ["ab", "c"] "a" 5
        = ((["ab", "c"] : List String).filter
            (fun label => !(label == "")
              && strContains (lowerStr label) (lowerStr "a"))).take 5 :=
  ⟨by decide, ((C5_autocomplete_correct ["ab", "c"] "a" 5).2.2.2.2 (by decide)).1⟩

/-- Claim C7: if the English lookup fails, or the English lookup succeeds and
the Swedish lookup fails, perform_search returns the error payload carrying
the failure detail and no series; when both succeed it returns the merged
series, which is empty exactly when both lookups returned no rows. -/
theorem C7_perform_search_errors (db : DbEnv) (query swedish : String) :
    (∀ e, db.countEn (stripStr query) = .error e →
        perform_search db query swedish = .err e query swedish)
    ∧ (∀ dataEn e, db.countEn (stripStr query) = .ok dataEn →
        db.countSv swedish = .error e →
        perform_search db query swedish = .err e query swedish)
    ∧ (∀ dataEn dataSv, db.countEn (stripStr query) = .ok dataEn →
        db.countSv swedish = .ok dataSv →
        perform_search db query swedish = .ok query swedish (mergeWeeks dataEn dataSv)
        ∧ (mergeWeeks dataEn dataSv = [] ↔ dataEn = [] ∧ dataSv = [])) := by
  refine ⟨?_, ?_, ?_⟩
  · intro e he
    unfold perform_search
    rw [he]
  · intro dataEn e hen hsv
    unfold perform_search
    rw [hen, hsv]
  · intro dataEn dataSv hen hsv
    refine ⟨?_, mergeWeeks_eq_nil_iff dataEn dataSv⟩
    unfold perform_search
    rw [hen, hsv]

/-- Claim C7 witness: a failing store connection surfaces as the error
payload. -/
theorem C7_perform_search_errors_witness :
    dbFail.countEn (stripStr "welder") = .error "connection refused"
    ∧ perform_search dbFail "welder" "svetsare"
        = .err "connection refused" "welder" "svetsare" :=
  ⟨rfl, (C7_perform_search_errors dbFail "welder" "svetsare").1 "connection refused" rfl⟩

/-- Claim C9 (counterexample): in the search/multi-search flow the display is
the bare label whenever the computed English translation is the empty string,
even though "" differs case-insensitively from a non-empty Swedish label —
contradicting the claim that the display is "english (swedish)" whenever the
two differ case-insensitively. -/
theorem C9_display_counterexample :
    lowerStr "" ≠ lowerStr "x" ∧ format_suggestion_checked "" "x" = "x" :=
  ⟨by decide, by decide⟩

/-- Claim C9 (amended): when English and Swedish labels are equal
case-insensitively, both formatters return the bare label (no parenthetical
duplication); when they differ, the `/autocomplete` formatter returns
"english (swedish)" unconditionally, while the search-flow formatter does so
only for a non-empty English label and falls back to the bare label when the
English translation is empty. -/
theorem C9_display_correct (en sv : String) :
    (lowerStr en = lowerStr sv →
      format_suggestion en sv = sv ∧ format_suggestion_checked en sv = sv)
    ∧ (lowerStr en ≠ lowerStr sv → format_suggestion en sv = en ++ " (" ++ sv ++ ")")
    ∧ (lowerStr en ≠ lowerStr sv → en ≠ "" →
        format_suggestion_checked en sv = en ++ " (" ++ sv ++ ")")
    ∧ format_suggestion_checked "" sv = sv := by
  refine ⟨?_, ?_, ?_, ?_⟩
  · intro h
    constructor
    · unfold format_suggestion
      rw [if_neg (by simp [h])]
    · unfold format_suggestion_checked
      rw [if_neg (by simp [h])]
  · intro h
    unfold format_suggestion
    rw [if_pos h]
  · intro h hne
    unfold format_suggestion_checked
    rw [if_pos ⟨hne, h⟩]
  · unfold format_suggestion_checked
    rw [if_neg (by simp)]

/-- Claim C9 witness: case-insensitively equal labels collapse to the bare
label; distinct labels get the bilingual display. -/
theorem C9_display_correct_witness :
    lowerStr "Plumber" = lowerStr "plumber"
    ∧ format_suggestion "Plumber" "plumber" = "plumber"
    ∧ format_suggestion "Dentist" "tandläkare" = "Dentist" ++ " (" ++ "tandläkare" ++ ")" :=
  ⟨by decide,
    ((C9_display_correct "Plumber" "plumber").1 (by decide)).2.symm ▸
      ((C9_display_correct "Plumber" "plumber").1 (by decide)).1,
    (C9_display_correct "Dentist" "tandläkare").2.1 (by decide)⟩

end Ajos

namespace Ajos

/-- Claim C3: provided the common-profession translations are available,
is_too_general answers, and it answers true exactly when the trimmed
lower-cased query equals a term of the common-profession list, or equals the
lower-cased Swedish translation of one of its terms, or at least `max_labels`
catalog labels contain the trimmed lower-cased query in their lower-cased
text; moreover the answer is invariant under re-trimming and re-casing of the
query. -/
theorem C3_is_too_general_correct (env : TransEnv) (common : CommonProfessions)
    (occupation_labels : List String) (max_labels : Nat) (q : String)
    (h : ∀ p ∈ common, ∃ sw, translate_en_to_sv env p = .ok sw) :
    (∃ b, is_too_general env common q occupation_labels max_labels = .ok b)
    ∧ (is_too_general env common q occupation_labels max_labels = .ok true ↔
        (lowerStr (stripStr q) ∈ common
         ∨ (∃ p ∈ common, ∃ sw, translate_en_to_sv env p = .ok sw
              ∧ lowerStr (stripStr q) = lowerStr sw)
         ∨ max_labels ≤ (occupation_labels.filter
              (fun lbl => strContains (lowerStr lbl) (lowerStr (stripStr q)))).length))
    ∧ (∀ q1 q2, lowerStr (stripStr q1) = lowerStr (stripStr q2) →
        is_too_general env common q1 occupation_labels max_labels
          = is_too_general env common q2 occupation_labels max_labels) := by
  obtain ⟨b, hb, hiff⟩ := tooGeneralLoop_ok env (lowerStr (stripStr q)) common h
  refine ⟨?_, ?_, ?_⟩
  · by_cases hmem : lowerStr (stripStr q) ∈ common
    · refine ⟨true, ?_⟩
      unfold is_too_general
      rw [if_pos hmem]
    · cases b with
      | true =>
        refine ⟨true, ?_⟩
        unfold is_too_general
        rw [if_neg hmem]
        simp only [hb]
      | false =>
        refine ⟨decide (max_labels ≤ (occupation_labels.filter
          (fun lbl => strContains (lowerStr lbl) (lowerStr (stripStr q)))).length), ?_⟩
        unfold is_too_general
        rw [if_neg hmem]
        simp only [hb]
  · by_cases hmem : lowerStr (stripStr q) ∈ common
    · have hres : is_too_general env common q occupation_labels max_labels = .ok true := by
        unfold is_too_general
        rw [if_pos hmem]
      rw [hres]
      exact iff_of_true rfl (Or.inl hmem)
    · cases b with
      | true =>
        have hres : is_too_general env common q occupation_labels max_labels = .ok true := by
          unfold is_too_general
          rw [if_neg hmem]
          simp only [hb]
        rw [hres]
        exact iff_of_true rfl (Or.inr (Or.inl (hiff.mp rfl)))
      | false =>
        have hres : is_too_general env common q occupation_labels max_labels
            = .ok (decide (max_labels ≤ (occupation_labels.filter
                (fun lbl => strContains (lowerStr lbl) (lowerStr (stripStr q)))).length)) := by
          unfold is_too_general
          rw [if_neg hmem]
          simp only [hb]
        rw [hres]
        constructor
        · intro hok
          injection hok with h2
          exact Or.inr (Or.inr (of_decide_eq_true h2))
        · intro hr
          rcases hr with hr | hr | hr
          · exact absurd hr hmem
          · exact absurd (hiff.mpr hr) (by simp)
          · rw [decide_eq_true hr]
  · intro q1 q2 h12
    unfold is_too_general
    rw [h12]

/-- Claim C3 witness: the spec's ten-matching-labels scenario with an empty
common-profession list. -/
theorem C3_is_too_general_correct_witness :
    (∀ p ∈ ([] : List String), ∃ sw, translate_en_to_sv envMissing p = .ok sw)
    ∧ is_too_general envMissing [] "welder" welderLabels 10 = .ok true :=
  ⟨by simp,
    (C3_is_too_general_correct envMissing [] welderLabels 10 "welder" (by simp)).2.1.mpr
      (Or.inr (Or.inr (by decide)))⟩

/-- Claim C6: with refined = true and a non-empty trimmed query, search_query
never returns the refinement outcome: it yields a search result or an error
value, and the generality classifier is never consulted — the outcome does
not depend on the common-profession list or the label catalog. -/
theorem C6_refined_skips_refinement (env : TransEnv) (db : DbEnv) (fix : ManualFixTable)
    (common : CommonProfessions) (occupation_labels : List String) (query : String)
    (h : stripStr query ≠ "") :
    ((∃ r, search_query env db fix common occupation_labels query true = .search r)
      ∨ (∃ m, search_query env db fix common occupation_labels query true = .error m))
    ∧ (∀ s o a, search_query env db fix common occupation_labels query true
        ≠ .needRefine s o a)
    ∧ (∀ (common2 : CommonProfessions) (labels2 : List String),
        search_query env db fix common2 labels2 query true
          = search_query env db fix common occupation_labels query true) := by
  have key : ∀ (c : CommonProfessions) (ol : List String),
      search_query env db fix c ol query true
        = match get_swedish_profession fix env (stripStr query) with
          | .error e => .error e.message
          | .ok swedish => .search (perform_search db (stripStr query) swedish) := by
    intro c ol
    unfold search_query
    rw [if_neg h]
    cases hg : get_swedish_profession fix env (stripStr query) with
    | error e => rfl
    | ok sw => rfl
  refine ⟨?_, ?_, fun c2 l2 => (key c2 l2).trans (key common occupation_labels).symm⟩
  · cases hg : get_swedish_profession fix env (stripStr query) with
    | error e =>
      right
      refine ⟨e.message, ?_⟩
      rw [key common occupation_labels]
      simp only [hg]
    | ok sw =>
      left
      refine ⟨perform_search db (stripStr query) sw, ?_⟩
      rw [key common occupation_labels]
      simp only [hg]
  · intro s o a hc
    rw [key common occupation_labels] at hc
    cases hg : get_swedish_profession fix env (stripStr query) with
    | error e =>
      rw [hg] at hc
      exact QueryOutcome.noConfusion hc
    | ok sw =>
      rw [hg] at hc
      exact QueryOutcome.noConfusion hc

/-- Claim C6 witness. -/
theorem C6_refined_skips_refinement_witness :
    stripStr "dentist" ≠ ""
    ∧ ∀ s o a, search_query envMissing dbStub [] [] [] "dentist" true
        ≠ .needRefine s o a :=
  ⟨by decide,
    (C6_refined_skips_refinement envMissing dbStub [] [] [] "dentist" (by decide)).2.1⟩

/-- Claim C8: search_query returns the "Empty query." error exactly when the
trimmed query is empty; in that case the outcome is the same for every
translation environment, store, manual table, common list and catalog, so no
translation, classification or search is performed. -/
theorem C8_empty_query (env : TransEnv) (db : DbEnv) (fix : ManualFixTable)
    (common : CommonProfessions) (occupation_labels : List String)
    (query : String) (refined : Bool) :
    (search_query env db fix common occupation_labels query refined
        = .error "Empty query." ↔ stripStr query = "")
    ∧ (stripStr query = "" →
        ∀ (env2 : TransEnv) (db2 : DbEnv) (fix2 : ManualFixTable)
          (common2 : CommonProfessions) (labels2 : List String),
          search_query env2 db2 fix2 common2 labels2 query refined
            = .error "Empty query.") := by
  constructor
  · constructor
    · intro h
      by_contra hne
      unfold search_query at h
      rw [if_neg hne] at h
      cases hg : get_swedish_profession fix env (stripStr query) with
      | error e =>
        simp only [hg] at h
        cases e
        exact absurd h (by decide)
      | ok sw =>
        cases refined with
        | true =>
          simp only [hg, if_true] at h
          exact QueryOutcome.noConfusion h
        | false =>
          simp only [hg, if_false] at h
          rw [if_neg Bool.false_ne_true] at h
          cases hig : is_too_general env common (stripStr query) occupation_labels 10 with
          | error e =>
            simp only [hig] at h
            cases e
            exact absurd h (by decide)
          | ok b =>
            cases b with
            | true =>
              simp only [hig] at h
              exact QueryOutcome.noConfusion h
            | false =>
              simp only [hig] at h
              exact QueryOutcome.noConfusion h
    · intro h
      unfold search_query
      rw [if_pos h]
  · intro h env2 db2 fix2 common2 labels2
    unfold search_query
    rw [if_pos h]

/-- Claim C8 witness: an all-whitespace query. -/
theorem C8_empty_query_witness :
    stripStr "   " = ""
    ∧ search_query envMissing dbStub [] [] [] "   " false = .error "Empty query." :=
  ⟨by decide,
    (C8_empty_query envMissing dbStub [] [] [] "   " false).1.mpr (by decide)⟩

end Ajos

namespace Ajos

/-- Claim C10 (counterexample): with a title-cased MANUAL_FIX key (the key
shape the source's own comment illustrates), the query "welder" has a trimmed
lower-cased form that is a key of neither manual table and the en→sv pair is
unavailable, yet search_query with refined = false returns NeedsRefinement
via the title-cased MANUAL_FIX hit instead of an error outcome. -/
theorem C10_translation_first_counterexample :
    List.lookup (lowerStr (stripStr "welder")) MANUAL_TRANSLATIONS = none
    ∧ List.lookup (lowerStr (stripStr "welder")) fixTitle = none
    ∧ envMissing.enInstalled = false
    ∧ search_query envMissing dbStub fixTitle [] welderLabels "welder" false
        = .needRefine [] "welder" true :=
  ⟨by decide, by decide, rfl, by decide⟩

/-- Claim C10 (amended): if the stripped query misses MANUAL_FIX under both
lookup keys the code uses (verbatim and title-cased) and its trimmed
lower-cased form misses MANUAL_TRANSLATIONS, then with the en→sv pair
unavailable search_query with refined = false returns the translation error
outcome and never NeedsRefinement: the Swedish term is computed before the
generality classifier is consulted. -/
theorem C10_translation_before_classifier (env : TransEnv) (db : DbEnv)
    (fix : ManualFixTable) (common : CommonProfessions)
    (occupation_labels : List String) (query : String)
    (hq : stripStr query ≠ "")
    (h1 : List.lookup (stripStr query) fix = none)
    (h2 : List.lookup (titleCase (stripStr query)) fix = none)
    (h3 : List.lookup (lowerStr (stripStr query)) MANUAL_TRANSLATIONS = none)
    (h4 : ¬(env.enInstalled = true ∧ env.svInstalled = true)) :
    search_query env db fix common occupation_labels query false
      = .error TransError.packagesNotInstalled.message
    ∧ ∀ s o a, search_query env db fix common occupation_labels query false
        ≠ .needRefine s o a := by
  have htr : translate_en_to_sv env (stripStr query) = .error .packagesNotInstalled := by
    unfold translate_en_to_sv
    rw [stripStr_idem]
    simp only [h3]
    unfold argosEnSv
    rw [if_neg h4]
  have hgs : get_swedish_profession fix env (stripStr query)
      = .error .packagesNotInstalled := by
    unfold get_swedish_profession
    simp only [h1, h2]
    exact htr
  have hout : search_query env db fix common occupation_labels query false
      = .error TransError.packagesNotInstalled.message := by
    unfold search_query
    rw [if_neg hq]
    simp only [hgs]
  exact ⟨hout, fun s o a hc => QueryOutcome.noConfusion (hout.symm.trans hc)⟩

/-- Claim C10 witness: an empty MANUAL_FIX table and no installed packages. -/
theorem C10_translation_before_classifier_witness :
    stripStr "welder" ≠ ""
    ∧ search_query envMissing dbStub [] [] welderLabels "welder" false
        = .error TransError.packagesNotInstalled.message :=
  ⟨by decide,
    (C10_translation_before_classifier envMissing dbStub [] [] welderLabels "welder"
        (by decide) (by decide) (by decide) (by decide) (by decide)).1⟩

/-- Claim C2 (counterexample): a batch of one unrefined too-general query
whose Swedish translation matches no catalog label: the combined refinement
response flags index 0 (listed in refine_which with allowRawSearch = true),
yet its suggestion list is empty — contradicting "exactly the flagged indexes
carry a non-empty suggestion list". -/
theorem C2_batch_refinement_counterexample :
    multi_search envOk dbStub [] welderLabels ["welder"] (some [false])
      = .refine [0] [[]] ["welder"] [true] := by
  decide

/-- Claim C2 (amended): for a batch of at most 2 queries whose refinement scan
raises no exception, if at least one unrefined query is classified too
general, the batch returns the combined refinement response keyed by index —
each flagged index is processed to allowRawSearch = true with the
autocomplete-computed suggestion list (which may be empty), each unflagged
index carries an empty suggestion list and allowRawSearch = false — and no
store search is executed (the response is independent of the store); only
when no query is flagged are all queries searched. -/
theorem C2_batch_refinement (env : TransEnv) (db : DbEnv) (common : CommonProfessions)
    (occupation_labels : List String) (queries : List String) (refined : List Bool)
    (entries : List (Bool × List String × Bool))
    (hne : queries ≠ []) (hle : queries.length ≤ 2)
    (hlen : refined.length = queries.length)
    (hscan : refineScan env common occupation_labels (queries.zip refined) = .ok entries) :
    ((∃ e ∈ entries, e.1 = true) →
      multi_search env db common occupation_labels queries (some refined)
        = .refine ((entries.enum.filter (fun p => p.2.1)).map Prod.fst)
            (entries.map (fun e => e.2.1)) queries (entries.map (fun e => e.2.2))
      ∧ (∀ db2 : DbEnv, multi_search env db2 common occupation_labels queries (some refined)
          = multi_search env db common occupation_labels queries (some refined))
      ∧ entries.length = queries.length
      ∧ (∀ i (hqi : i < queries.length) (hri : i < refined.length)
          (hei : i < entries.length),
          refineEntry env common occupation_labels queries[i] refined[i]
            = .ok entries[i])
      ∧ (∀ e ∈ entries,
          (e.1 = false → e.2.1 = [] ∧ e.2.2 = false) ∧ (e.1 = true → e.2.2 = true)))
    ∧ ((∀ e ∈ entries, e.1 = false) →
        ∀ rs, searchAll env db queries = .ok rs →
          multi_search env db common occupation_labels queries (some refined) = .results rs
          ∧ rs.length = queries.length) := by
  have heval := multi_search_eval env db common occupation_labels queries refined hne hle hlen
  obtain ⟨hsl, hsidx⟩ :=
    refineScan_ok env common occupation_labels (queries.zip refined) entries hscan
  have hlen2 : entries.length = queries.length := by
    rw [hsl, List.length_zip, hlen, Nat.min_self]
  constructor
  · intro hflag
    have hany : entries.any (fun e => e.1) = true := by
      rw [List.any_eq_true]
      obtain ⟨e, he, het⟩ := hflag
      exact ⟨e, he, het⟩
    refine ⟨?_, ?_, hlen2, ?_, ?_⟩
    · simp only [heval, hscan]
      rw [if_pos hany]
    · intro db2
      have heval2 :=
        multi_search_eval env db2 common occupation_labels queries refined hne hle hlen
      simp only [heval, heval2, hscan]
      rw [if_pos hany, if_pos hany]
    · intro i hqi hri hei
      have hp : i < (queries.zip refined).length := by
        rw [List.length_zip, hlen, Nat.min_self]
        exact hqi
      have hzip : (queries.zip refined).get ⟨i, hp⟩ = (queries[i], refined[i]) := by
        rw [List.get_eq_getElem, List.getElem_zip]
      have hre := hsidx i hp hei
      rw [hzip] at hre
      rw [List.get_eq_getElem] at hre
      exact hre
    · intro e he
      obtain ⟨⟨i, hi⟩, hget⟩ := List.mem_iff_get.mp he
      have hp : i < (queries.zip refined).length := by
        rw [List.length_zip, hlen, Nat.min_self, ← hlen2]
        exact hi
      have hre := hsidx i hp hi
      rw [hget] at hre
      rcases refineEntry_shape _ _ _ _ _ _ hre with ⟨heq, _⟩ | ⟨hf1, hf2, _⟩
      · subst heq
        exact ⟨fun _ => ⟨rfl, rfl⟩, fun hc => Bool.noConfusion hc⟩
      · exact ⟨fun hfalse => absurd (hfalse.symm.trans hf1) (by decide), fun _ => hf2⟩
  · intro hall rs hsearch
    have hany : ¬(entries.any (fun e => e.1) = true) := by
      rw [List.any_eq_true]
      rintro ⟨e, he, het⟩
      rw [hall e he] at het
      exact Bool.noConfusion het
    constructor
    · simp only [heval, hscan]
      rw [if_neg hany]
      simp only [hsearch]
    · exact (searchAll_ok env db queries rs hsearch).1

/-- Claim C2 witness: the amended theorem applied to the concrete one-query
batch of the counterexample. -/
theorem C2_batch_refinement_witness :
    refineScan envOk [] welderLabels (["welder"].zip [false])
      = .ok [(true, ([] : List String), true)]
    ∧ multi_search envOk dbStub [] welderLabels ["welder"] (some [false])
      = .refine
          ((([((true : Bool), ([] : List String), (true : Bool))].enum.filter
              (fun p => p.2.1)).map Prod.fst))
          ([((true : Bool), ([] : List String), (true : Bool))].map (fun e => e.2.1))
          ["welder"]
          ([((true : Bool), ([] : List String), (true : Bool))].map (fun e => e.2.2)) :=
  ⟨by decide,
    ((C2_batch_refinement envOk dbStub [] welderLabels ["welder"] [false]
        [(true, [], true)] (by decide) (by decide) (by decide) (by decide)).1
      (by decide)).1⟩

end Ajos
